import Mathlib

/-!
Shallow embedding of the `esl` Go package (a FreeSWITCH event-socket client).

Go strings and byte slices are byte sequences; we model both as `List Char`,
one `Char` per byte.  All protocol data handled by the package is ASCII, so
the byte-level and character-level views coincide.  Go `map[string]string`
values are modelled extensionally as key-sorted association lists
(`Headers`), which is faithful because Go maps are unordered and the code
sorts keys before every serialization.  Machine integers are modelled as
`Nat`/`Int` with explicit clamping at `2^63` where Go's `strconv` overflow
behaviour matters.
-/

namespace Esl

/-- A Go string / byte slice: a list of bytes (each represented as a `Char`). -/
abbrev Str := List Char

/-- Embed a Lean string literal (ASCII) as a byte list. -/
def str (s : String) : Str := s.data

/-- ASCII lower-casing of one byte; models Go `strings.EqualFold`'s folding
restricted to ASCII (all strings compared case-insensitively by this package
are ASCII). -/
def foldChar (c : Char) : Char :=
  if 'A' ≤ c ∧ c ≤ 'Z' then Char.ofNat (c.toNat + 32) else c

/-- Models `strings.EqualFold` on ASCII data: equality after case folding. -/
def goEqualFold (a b : Str) : Bool :=
  a.map foldChar = b.map foldChar

/-- Models `trimLeft` from `tools.go`: removes leading spaces and tabs. -/
def trimLeft : Str → Str
  | [] => []
  | c :: rest => if c = ' ' ∨ c = '\t' then trimLeft rest else c :: rest

/-- Models the `skipNewLines` replacer from `event.go`
(`strings.NewReplacer("\r\n", " ", "\n", " ")`): the earliest, longest
pattern wins at each position. -/
def skipNewLines : Str → Str
  | [] => []
  | '\r' :: '\n' :: rest => ' ' :: skipNewLines rest
  | '\n' :: rest => ' ' :: skipNewLines rest
  | c :: rest => c :: skipNewLines rest

/-- Models `bytes.HasPrefix`/`strings.HasPrefix`: `goHasPfx s p` is true iff
`s` begins with `p`. -/
def goHasPfx : Str → Str → Bool
  | _, [] => true
  | [], _ :: _ => false
  | c :: s, d :: p => c = d && goHasPfx s p

/-- Models `strings.TrimPrefix`: removes `p` from the front of `s` when
present, otherwise returns `s` unchanged. -/
def trimLead (s p : Str) : Str :=
  if goHasPfx s p then s.drop p.length else s

/-- Is this byte an ASCII hex digit (as accepted by `net/url`'s unescaper)? -/
def isHexDigit (c : Char) : Bool :=
  ('0' ≤ c ∧ c ≤ '9') ∨ ('a' ≤ c ∧ c ≤ 'f') ∨ ('A' ≤ c ∧ c ≤ 'F')

/-- Numeric value of an ASCII hex digit. -/
def hexVal (c : Char) : Nat :=
  if '0' ≤ c ∧ c ≤ '9' then c.toNat - 48
  else if 'a' ≤ c ∧ c ≤ 'f' then c.toNat - 87
  else c.toNat - 55

/-- Models `url.PathUnescape`: decodes `%XX` escapes byte-wise, fails (like
Go's `EscapeError`) when a `%` is not followed by two hex digits.  `+` is
left untouched in path mode. -/
def pathUnescape : Str → Option Str
  | [] => some []
  | '%' :: a :: b :: rest =>
    if isHexDigit a ∧ isHexDigit b then
      (pathUnescape rest).map (fun t => Char.ofNat (16 * hexVal a + hexVal b) :: t)
    else none
  | '%' :: _ => none
  | c :: rest => (pathUnescape rest).map (fun t => c :: t)

/-- Best-effort unescape as used by `parseEvent`: on decode failure the raw
value is retained (`if v, err := url.PathUnescape(value); err == nil`). -/
def pathUnescapeBE (s : Str) : Str :=
  (pathUnescape s).getD s

/-- ASCII digit character for `d < 10`. -/
def digitChar (d : Nat) : Char := Char.ofNat (48 + d)

/-- Models `strconv.Itoa` on non-negative values: minimal decimal digits. -/
def natToStr (n : Nat) : Str :=
  if _h : n < 10 then [digitChar n]
  else natToStr (n / 10) ++ [digitChar (n % 10)]
termination_by n
decreasing_by exact Nat.div_lt_self (by omega) (by omega)

/-- One step of decimal accumulation: fails on a non-digit byte. -/
def decStep (acc : Option Nat) (c : Char) : Option Nat :=
  match acc with
  | none => none
  | some a => if '0' ≤ c ∧ c ≤ '9' then some (10 * a + (c.toNat - 48)) else none

/-- Value of a non-empty all-digit decimal string; `none` on empty input or
any non-digit byte (Go `strconv.ParseUint` base-10 syntax). -/
def decVal (s : Str) : Option Nat :=
  if s = [] then none else s.foldl decStep (some 0)

/-- Models `strconv.ParseInt(s, 10, 64)` (and hence `strconv.Atoi` on a
64-bit platform).  Returns the parsed value together with an ok flag.  On a
syntax error Go returns `(0, err)`; on a range error it returns the clamped
extreme together with an error, and callers that ignore the error observe
the clamped value.  -/
def goParseInt (s : Str) : Int × Bool :=
  match s with
  | [] => (0, false)
  | c :: rest =>
    let neg : Bool := c = '-'
    let digits : Str := if c = '-' ∨ c = '+' then rest else s
    match decVal digits with
    | none => (0, false)
    | some d =>
      if neg then
        if d ≤ 2 ^ 63 then (-(d : Int), true) else (-(2 ^ 63 : Int), false)
      else
        if d ≤ 2 ^ 63 - 1 then ((d : Int), true) else ((2 ^ 63 - 1 : Int), false)

/-- A Go `map[string]string`, modelled extensionally as an association list
kept strictly sorted by key (byte-wise lexicographic order, which is how Go
compares strings). -/
abbrev Headers := List (Str × Str)

/-- Map read with Go's zero-value default: `m[k]` is `""` when absent. -/
def hlookup : Headers → Str → Str
  | [], _ => []
  | (k', v') :: t, k => if k = k' then v' else hlookup t k

/-- Map write `m[k] = v`: insert in key order, overwriting an existing key. -/
def hinsert : Headers → Str → Str → Headers
  | [], k, v => [(k, v)]
  | (k', v') :: t, k, v =>
    if k < k' then (k, v) :: (k', v') :: t
    else if k = k' then (k, v) :: t
    else (k', v') :: hinsert t k v

/-- Map delete `delete(m, k)`. -/
def hdelete : Headers → Str → Headers
  | [], _ => []
  | (k', v') :: t, k => if k = k' then t else (k', v') :: hdelete t k

/-- Canonical-form invariant of the map representation: keys are strictly
increasing. -/
def HSorted (hs : Headers) : Prop :=
  hs.Pairwise (fun a b => a.1 < b.1)

/-- The `Content-Length` header key. -/
def contentLengthKey : Str := str ("Content-Length")

/-- An ESL `Event`: header map plus raw body (`event.go`). -/
structure Event where
  headers : Headers
  body : Str
deriving DecidableEq

/-- One serialized event header line `<key>: <value>\n`, with embedded line
breaks in the value collapsed to spaces (`skipNewLines.WriteString`). -/
def headerLine (k v : Str) : Str :=
  k ++ str (": ") ++ skipNewLines v ++ ['\n']

/-- Models `Event.WriteTo` (`event.go`): emit all headers except any key
case-insensitively equal to `Content-Length`, sorted by key; then, when the
body is non-empty, a recomputed `Content-Length` header, a blank line, and
the body. -/
def eventWriteTo (e : Event) : Str :=
  (((List.insertionSort (· ≤ ·)
        ((e.headers.map Prod.fst).filter
          (fun k => !goEqualFold k contentLengthKey))).map
      (fun k => headerLine k (hlookup e.headers k))).flatten)
  ++ (if 0 < e.body.length then
        contentLengthKey ++ str (": ") ++ natToStr e.body.length
          ++ str ("\n\n") ++ e.body
      else [])

/-- Split off the first line: `some (line, rest)` when a `\n` is present
(models `bytes.IndexByte(body, '\n')` followed by the re-slicing in
`parseEvent`), `none` when the remaining bytes hold no newline. -/
def splitLine : Str → Option (Str × Str)
  | [] => none
  | '\n' :: rest => some ([], rest)
  | c :: rest => (splitLine rest).map (fun p => (c :: p.1, p.2))

/-- Split a line at its first `:` (models `bytes.IndexByte(line, ':')`);
`none` when the line holds no colon. -/
def splitColonAux : Str → Option (Str × Str)
  | [] => none
  | ':' :: rest => some ([], rest)
  | c :: rest => (splitColonAux rest).map (fun p => (c :: p.1, p.2))

/-- Errors of `parseEvent`: a malformed header line, or a `Content-Length`
promising more bytes than remain (Go wraps `io.ErrUnexpectedEOF`). -/
inductive ParseErr
  | malformedHeader (line : Str)
  | bodyUnexpectedEOF
deriving DecidableEq

/-- Splitting off a line consumes at least the terminating newline; this
bound justifies termination of the header-parsing loops below. -/
def splitLine_some_len : ∀ (s l r : Str), splitLine s = some (l, r) → r.length < s.length := by
  intro s
  induction s with
  | nil => intro l r h; simp [splitLine] at h
  | cons c t ih =>
    intro l r h
    rw [splitLine.eq_def] at h
    split at h
    · exact absurd h (by simp)
    · rename_i rest heq
      injection heq with hc ht
      injection h with h
      injection h with h1 h2
      subst ht h2
      simp
    · rename_i c2 rest hne heq
      injection heq with hc ht
      subst ht
      cases hsp : splitLine t with
      | none => rw [hsp] at h; simp at h
      | some p =>
        rw [hsp] at h
        simp at h
        have := ih p.1 p.2 (by rw [hsp])
        rw [← h.2]
        simp
        omega

/-- The header loop of `parseEvent`: consume lines until a blank line (or a
line holding only `\r`), the end of input, or a trailing fragment with no
newline; accumulate `key: value` pairs with the value left-trimmed and
best-effort percent-decoded.  Returns the header map and the unconsumed
bytes. -/
def parseHeaders (s : Str) (acc : Headers) : Except ParseErr (Headers × Str) :=
  match h : splitLine s with
  | none => .ok (acc, s)
  | some (line, rest) =>
    if line = [] ∨ line = ['\r'] then .ok (acc, rest)
    else
      match splitColonAux line with
      | none => .error (.malformedHeader line)
      | some (key, raw) =>
        if key = [] then .error (.malformedHeader line)
        else
          have : rest.length < s.length := splitLine_some_len s line rest h
          parseHeaders rest (hinsert acc key (pathUnescapeBE (trimLeft raw)))
termination_by s.length

/-- Models `parseEvent` (`event.go`): parse the header block, then read
`Content-Length` (ignoring the `Atoi` error, so `0` on a syntax error and
the clamped extreme on a range error) and take exactly that many body bytes;
fewer available bytes is the `failed to read body: unexpected EOF` error. -/
def parseEvent (s : Str) : Except ParseErr Event :=
  match parseHeaders s [] with
  | .error e => .error e
  | .ok (hs, rest) =>
    let length := (goParseInt (hlookup hs contentLengthKey)).fst
    if 0 < length then
      if length ≤ (rest.length : Int) then .ok ⟨hs, rest.take length.toNat⟩
      else .error .bodyUnexpectedEOF
    else .ok ⟨hs, []⟩

/-- The synthetic JSON body field key `_body`. -/
def bodyKey : Str := str ("_body")

/-- Models `Event.MarshalJSON` at the JSON-object level (a JSON object with
string fields is represented by its key-sorted field map, which also matches
Go's `encoding/json` output order for maps): the header map, plus a `_body`
field holding the body when the body is non-empty. -/
def eventMarshalJSON (e : Event) : Headers :=
  if 0 < e.body.length then hinsert e.headers bodyKey e.body else e.headers

/-- Models `Event.UnmarshalJSON` at the JSON-object level: read all fields
into the header map, then move a non-empty `_body` field into the binary
body. -/
def eventUnmarshalJSON (j : Headers) : Event :=
  if hlookup j bodyKey ≠ [] then ⟨hdelete j bodyKey, hlookup j bodyKey⟩
  else ⟨j, []⟩

/-- Models `Event.Sequence`: `Event-Sequence` through `strconv.ParseInt`
with the error ignored, so the parsed (or clamped) value, `0` on a syntax
error or absence. -/
def eventSequence (e : Event) : Int :=
  (goParseInt (hlookup e.headers (str ("Event-Sequence")))).fst

/-- Go's zero `time.Time` (January 1, year 1 UTC) expressed in microseconds
since the Unix epoch: `-62135596800 * 1e6`. -/
def zeroTimeMicro : Int := -62135596800000000

/-- Models `Event.Timestamp` with a `time.Time` represented by its
microseconds since the Unix epoch (`time.UnixMicro i ↦ i`): the parsed
`Event-Date-Timestamp` when `ParseInt` succeeds, otherwise Go's zero time. -/
def eventTimestampMicro (e : Event) : Int :=
  let p := goParseInt (hlookup e.headers (str ("Event-Date-Timestamp")))
  if p.snd then p.fst else zeroTimeMicro

/-- An outgoing ESL `command` (`command.go`).  The header map is carried as
a raw association list (some iteration order of the Go map); serialization
sorts keys, which is what makes the output independent of that order. -/
structure Command where
  name : Str
  params : Str
  jobUUID : Str
  headers : List (Str × Str)
  body : Str
deriving DecidableEq

/-- The sorted key sequence a `command.WriteTo` emits (`slices.Sort(keys)`). -/
def cmdSortedKeys (c : Command) : List Str :=
  List.insertionSort (· ≤ ·) (c.headers.map Prod.fst)

/-- Models `command.WriteTo`: verb, optional ` <params>`, optional
`\nJob-UUID: <id>`, headers sorted by key as `\n<key>: <value>`, and for a
non-empty body a lower-case `\ncontent-length: <n>` header, a blank line and
the body. -/
def cmdWriteTo (c : Command) : Str :=
  c.name
  ++ (if c.params ≠ [] then ' ' :: c.params else [])
  ++ (if c.jobUUID ≠ [] then str ("\nJob-UUID: ") ++ c.jobUUID else [])
  ++ (if c.headers ≠ [] then
        ((cmdSortedKeys c).map
          (fun k => '\n' :: (k ++ str (": ") ++ hlookup c.headers k))).flatten
      else [])
  ++ (if c.body ≠ [] then
        str ("\ncontent-length: ") ++ natToStr c.body.length
          ++ str ("\n\n") ++ c.body
      else [])

/-- Models `command.IsZero`: a command with an empty name. -/
def cmdIsZero (c : Command) : Bool := c.name = []

/-- Models `conn.Write` as its effect on the outgoing byte stream `out`: a
zero command returns nil immediately and emits nothing; otherwise the
serialized command followed by the `\n\n` frame terminator is appended and
flushed. -/
def connWrite (c : Command) (out : Str) : Str :=
  if cmdIsZero c then out else out ++ cmdWriteTo c ++ str ("\n\n")

/-- Content type of a disconnect notice (the package's closed set of
protocol content types). -/
def disconnectNotice : Str := str ("text/disconnect-notice")

/-- Content type of a command reply. -/
def commandReply : Str := str ("command/reply")

/-- Content type of an API response. -/
def apiResponse : Str := str ("api/response")

/-- Content type of a plain-text event frame. -/
def eventPlain : Str := str ("text/event-plain")

/-- Content type of the server's authentication request. -/
def authRequest : Str := str ("auth/request")

/-- Content type of the server's access-denied rejection. -/
def rudeRejection : Str := str ("text/rude-rejection")

/-- A parsed reply frame (`response` in `event.go`). -/
structure Response where
  contentType : Str
  text : Str
  jobUUID : Str
  body : Str
deriving DecidableEq

/-- The error value produced by `response.AsErr`: `io.EOF` or an
`errors.New` carrying a message. -/
inductive RespErr
  | eofErr
  | msgErr (s : Str)
deriving DecidableEq

/-- Models `response.AsErr`: a disconnect notice is always `io.EOF`; a
command reply whose `Reply-Text` begins with `-ERR` is an error carrying
that text; an api response whose body begins with `-ERR` is an error
carrying that body; everything else is success (`nil`). -/
def respAsErr (r : Response) : Option RespErr :=
  if r.contentType = disconnectNotice then some .eofErr
  else if r.contentType = commandReply then
    if goHasPfx r.text (str ("-ERR")) then some (.msgErr r.text) else none
  else if r.contentType = apiResponse then
    if goHasPfx r.body (str ("-ERR")) then some (.msgErr r.body) else none
  else none

/-- Stream-level read errors (from `io`): end of input with nothing read, or
end of input after a partial body (`io.ErrUnexpectedEOF`). -/
inductive IOErr
  | eof
  | unexpectedEof
deriving DecidableEq

/-- Errors of `conn.Read`: a line-read failure returned unwrapped, a
malformed header line, a malformed `Content-Length` value (here, unlike
`parseEvent`, the `Atoi` error is checked), or a failed body read wrapping
the underlying stream error. -/
inductive RdErr
  | readErr (e : IOErr)
  | malformedHeader (line : Str)
  | malformedLength (v : Str)
  | failedReadBody (e : IOErr)
deriving DecidableEq

/-- Models `conn.readLine` over `bufio.Reader.ReadLine` on a byte stream:
`io.EOF` on an empty stream; otherwise the next line with its `\n` (and a
preceding `\r`) stripped, or all remaining bytes when no newline is left.
The `more`-flag accumulation of long lines is transparent here. -/
def readLine (s : Str) : Except IOErr (Str × Str) :=
  if s = [] then .error .eof
  else
    match splitLine s with
    | some (l, rest) =>
      .ok ((if l.getLast? = some '\r' then l.dropLast else l), rest)
    | none => .ok (s, [])

/-- Models `io.ReadFull` of `n > 0` bytes: all `n` bytes when available;
`io.EOF` when the stream is empty; `io.ErrUnexpectedEOF` after a partial
read. -/
def readFull (n : Nat) (s : Str) : Except IOErr (Str × Str) :=
  if n ≤ s.length then .ok (s.take n, s.drop n)
  else if s.length = 0 then .error .eof
  else .error .unexpectedEof

/-- A successful `readLine` always consumes at least one byte of the
stream; this bound justifies termination of the `conn.Read` header loop. -/
def readLine_ok_len : ∀ (s line rest : Str), readLine s = .ok (line, rest) →
    rest.length < s.length := by
  intro s line rest h
  rw [readLine] at h
  split at h
  · exact absurd h (by simp)
  · rename_i hs
    split at h
    · rename_i l r hp
      injection h with h
      injection h with h1 h2
      subst h2
      exact splitLine_some_len s l r hp
    · injection h with h
      injection h with h1 h2
      subst h2
      simp
      exact List.length_pos.mpr hs

/-- The header loop of `conn.Read`: read lines, skipping blank lines while
the accumulated response is still zero (no `Content-Type` yet) and stopping
at the first blank line after that; recognize the `Content-Type`,
`Reply-Text`, `Job-UUID` and `Content-Length` keys, ignore any other key
(logged), and fail on a malformed header line or `Content-Length`.  Returns
the response, the parsed content length and the unconsumed stream. -/
def connReadLoop (s : Str) (resp : Response) (contentLength : Int) :
    Except RdErr (Response × Int × Str) :=
  match h : readLine s with
  | .error e => .error (.readErr e)
  | .ok (line, rest) =>
    have : rest.length < s.length := readLine_ok_len s line rest h
    if line = [] then
      if resp.contentType = [] then
        connReadLoop rest resp contentLength
      else .ok (resp, contentLength, rest)
    else
      match splitColonAux line with
      | none => .error (.malformedHeader line)
      | some (key, raw) =>
        if key = [] then .error (.malformedHeader line)
        else
          let value := trimLeft raw
          if key = str ("Content-Type") then
            connReadLoop rest { resp with contentType := value } contentLength
          else if key = str ("Reply-Text") then
            connReadLoop rest { resp with text := value } contentLength
          else if key = str ("Job-UUID") then
            connReadLoop rest { resp with jobUUID := value } contentLength
          else if key = str ("Content-Length") then
            match goParseInt value with
            | (v, true) => connReadLoop rest resp v
            | (_, false) => .error (.malformedLength value)
          else connReadLoop rest resp contentLength
termination_by s.length

/-- Models `conn.Read` as a function of the incoming byte stream: run the
header loop, then for a positive `Content-Length` read exactly that many
body bytes, wrapping a short read's stream error as `failed to read body`.
Returns the response together with the unconsumed stream. -/
def connRead (s : Str) : Except RdErr (Response × Str) :=
  match connReadLoop s ⟨[], [], [], []⟩ 0 with
  | .error e => .error e
  | .ok (resp, contentLength, rest) =>
    if 0 < contentLength then
      match readFull contentLength.toNat rest with
      | .error e => .error (.failedReadBody e)
      | .ok (body, rest2) => .ok ({ resp with body := body }, rest2)
    else .ok (resp, rest)

/-- Outcome of `conn.Auth` (its returned error, or nil on success). -/
inductive AuthResult
  | missingAuthRequest
  | accessDenied
  | eofErr
  | unexpectedReqCT (ct : Str)
  | sendFailed
  | readRespFailed
  | unexpectedRespCT (ct : Str)
  | invalidPassword
  | ok
deriving DecidableEq

/-- Models the decision logic of `conn.Auth` as a function of the outcomes
of its three I/O steps: the first frame read (`none` models a read error),
the `auth <password>` write, and the reply frame read.  The first frame must
be an `auth/request` (rude rejection is access denied, a disconnect notice
is `io.EOF`, anything else is an unexpected content type); the reply must be
a command reply with text exactly `+OK accepted` (any other text is
`ErrInvalidPassword`, any other content type is unexpected). -/
def connAuth (read1 : Option Response) (writeOk : Bool)
    (read2 : Option Response) : AuthResult :=
  match read1 with
  | none => .missingAuthRequest
  | some resp =>
    if resp.contentType = authRequest then
      if writeOk then
        match read2 with
        | none => .readRespFailed
        | some resp2 =>
          if resp2.contentType ≠ commandReply then
            .unexpectedRespCT resp2.contentType
          else if resp2.text ≠ str ("+OK accepted") then .invalidPassword
          else .ok
      else .sendFailed
    else if resp.contentType = rudeRejection then .accessDenied
    else if resp.contentType = disconnectNotice then .eofErr
    else .unexpectedReqCT resp.contentType

/-- The fixed table of known native FreeSWITCH event-type names
(`eventNames` in the source, transcribed verbatim). -/
def eventNames : List Str :=
  [str ("CUSTOM"), str ("CLONE"), str ("CHANNEL_CREATE"),
   str ("CHANNEL_DESTROY"), str ("CHANNEL_STATE"), str ("CHANNEL_CALLSTATE"),
   str ("CHANNEL_ANSWER"), str ("CHANNEL_HANGUP"),
   str ("CHANNEL_HANGUP_COMPLETE"), str ("CHANNEL_EXECUTE"),
   str ("CHANNEL_EXECUTE_COMPLETE"), str ("CHANNEL_HOLD"),
   str ("CHANNEL_UNHOLD"), str ("CHANNEL_BRIDGE"), str ("CHANNEL_UNBRIDGE"),
   str ("CHANNEL_PROGRESS"), str ("CHANNEL_PROGRESS_MEDIA"),
   str ("CHANNEL_OUTGOING"), str ("CHANNEL_PARK"), str ("CHANNEL_UNPARK"),
   str ("CHANNEL_APPLICATION"), str ("CHANNEL_ORIGINATE"),
   str ("CHANNEL_UUID"), str ("API"), str ("LOG"), str ("INBOUND_CHAN"),
   str ("OUTBOUND_CHAN"), str ("STARTUP"), str ("SHUTDOWN"),
   str ("PUBLISH"), str ("UNPUBLISH"), str ("TALK"), str ("NOTALK"),
   str ("SESSION_CRASH"), str ("MODULE_LOAD"), str ("MODULE_UNLOAD"),
   str ("DTMF"), str ("MESSAGE"), str ("PRESENCE_IN"), str ("NOTIFY_IN"),
   str ("PRESENCE_OUT"), str ("PRESENCE_PROBE"), str ("MESSAGE_WAITING"),
   str ("MESSAGE_QUERY"), str ("ROSTER"), str ("CODEC"),
   str ("BACKGROUND_JOB"), str ("DETECTED_SPEECH"), str ("DETECTED_TONE"),
   str ("PRIVATE_COMMAND"), str ("HEARTBEAT"), str ("TRAP"),
   str ("ADD_SCHEDULE"), str ("DEL_SCHEDULE"), str ("EXE_SCHEDULE"),
   str ("RE_SCHEDULE"), str ("RELOADXML"), str ("NOTIFY"),
   str ("PHONE_FEATURE"), str ("PHONE_FEATURE_SUBSCRIBE"),
   str ("SEND_MESSAGE"), str ("RECV_MESSAGE"), str ("REQUEST_PARAMS"),
   str ("CHANNEL_DATA"), str ("GENERAL"), str ("COMMAND"),
   str ("SESSION_HEARTBEAT"), str ("CLIENT_DISCONNECTED"),
   str ("SERVER_DISCONNECTED"), str ("SEND_INFO"), str ("RECV_INFO"),
   str ("RECV_RTCP_MESSAGE"), str ("SEND_RTCP_MESSAGE"),
   str ("CALL_SECURE"), str ("NAT"), str ("RECORD_START"),
   str ("RECORD_STOP"), str ("PLAYBACK_START"), str ("PLAYBACK_STOP"),
   str ("CALL_UPDATE"), str ("FAILURE"), str ("SOCKET_DATA"),
   str ("MEDIA_BUG_START"), str ("MEDIA_BUG_STOP"),
   str ("CONFERENCE_DATA_QUERY"), str ("CONFERENCE_DATA"),
   str ("CALL_SETUP_REQ"), str ("CALL_SETUP_RESULT"), str ("CALL_DETAIL"),
   str ("DEVICE_STATE"), str ("TEXT"), str ("SHUTDOWN_REQUESTED")]

/-- The literal `all` event name (`eventAll` in the source). -/
def allStr : Str := str ("all")

/-- The literal `CUSTOM` token. -/
def customStr : Str := str ("CUSTOM")

/-- Accumulate one more space-separated name into a group: a separating
space is written only when the group is non-empty (the
`if b.Len() > 0 { b.WriteByte(' ') }; b.WriteString(name)` pattern). -/
def appendSp (acc s : Str) : Str :=
  (if acc ≠ [] then acc ++ [' '] else acc) ++ s

/-- The join step after the loop of `buildEventNamesCmd`: when a custom
marker or custom names were seen, append the `CUSTOM` token followed by the
space-joined custom names to the native group; an empty result falls back
to `all`. -/
def benFinish (native custom : Str) (isCust : Bool) : Str :=
  let native :=
    if isCust || custom ≠ [] then
      appendSp native (customStr ++ (if custom ≠ [] then ' ' :: custom else []))
    else native
  if native = [] then allStr else native

/-- The loop of `buildEventNamesCmd`: skip empty names, return `all` early
on a case-insensitive `all`, record a case-insensitive `CUSTOM` as the
custom marker, accumulate names found in the native table into the native
group, and every other name (with a literal `CUSTOM ` lead stripped) into
the custom group. -/
def benLoop : List Str → Str → Str → Bool → Str
  | [], native, custom, isCust => benFinish native custom isCust
  | name :: rest, native, custom, isCust =>
    if name = [] then benLoop rest native custom isCust
    else if goEqualFold name allStr then allStr
    else if goEqualFold name customStr then benLoop rest native custom true
    else if name ∈ eventNames then
      benLoop rest (appendSp native name) custom isCust
    else
      benLoop rest native (appendSp custom (trimLead name (customStr ++ [' ']))) isCust

/-- Models `buildEventNamesCmd`: `all` for an empty list, an empty first
name or a first name case-insensitively equal to `all`; otherwise the loop
above over the whole list. -/
def buildEventNamesCmd (names : List Str) : Str :=
  match names with
  | [] => allStr
  | n0 :: _ =>
    if n0 = [] ∨ goEqualFold n0 allStr then allStr
    else benLoop names [] [] false

/-- Space-joined concatenation of a name list, in order (the shape of the
native group built from table names only). -/
def sjoin : List Str → Str
  | [] => []
  | [x] => x
  | x :: xs => x ++ ' ' :: sjoin xs

/-- A header entry survives the event wire format unchanged: the key is
non-empty, holds no colon or newline and is not (case-insensitively) the
`Content-Length` key the writer strips; the value holds no newline (which
the writer would collapse to a space), no leading space or tab (which the
parser would trim) and is a fixed point of best-effort percent-decoding
(which the parser applies). -/
def WireSafeHeader (p : Str × Str) : Prop :=
  p.1 ≠ [] ∧ ':' ∉ p.1 ∧ '\n' ∉ p.1 ∧ goEqualFold p.1 contentLengthKey = false
  ∧ '\n' ∉ p.2 ∧ trimLeft p.2 = p.2 ∧ pathUnescapeBE p.2 = p.2

/-- An event whose header map is in canonical form and whose every header
entry survives the wire format. -/
def WireSafe (e : Event) : Prop :=
  HSorted e.headers ∧ ∀ p ∈ e.headers, WireSafeHeader p

/-- A value `strconv.ParseInt(s, 10, 64)` rejects as a syntax error: the
empty string, or a string whose digit part — what is left after one
optional leading `-` or `+` sign — is empty or holds a byte outside
`0`-`9`. -/
def Int64SyntaxBad : Str → Prop
  | [] => True
  | c :: rest =>
    (if c = '-' ∨ c = '+' then rest else c :: rest) = []
    ∨ ∃ d ∈ (if c = '-' ∨ c = '+' then rest else c :: rest),
        ¬('0' ≤ d ∧ d ≤ '9')

/-- C9: writing a zero command (empty verb) through `conn.Write` is a
complete no-op: it returns nil before taking the lock and emits no bytes on
the stream, not even the `\n\n` frame terminator. -/
theorem connWrite_zero_noop (c : Command) (out : Str) (h : cmdIsZero c = true) :
    connWrite c out = out := by
  simp [connWrite, h]

/-- Witness for C9 at the zero command. -/
theorem connWrite_zero_noop_witness :
    cmdIsZero ⟨[], [], [], [], []⟩ = true
    ∧ connWrite ⟨[], [], [], [], []⟩ (str ("abc")) = str ("abc") :=
  ⟨by decide, connWrite_zero_noop ⟨[], [], [], [], []⟩ (str ("abc")) (by decide)⟩

/-- C5: `response.AsErr` classifies: a disconnect notice is always the
end-of-stream error; a command reply whose text begins with `-ERR` is an
error carrying that text; an api response whose body begins with `-ERR` is
an error carrying that body; every other response is success. -/
theorem respAsErr_classification (r : Response) :
    (r.contentType = disconnectNotice → respAsErr r = some .eofErr)
    ∧ (r.contentType = commandReply → goHasPfx r.text (str ("-ERR")) = true →
        respAsErr r = some (.msgErr r.text))
    ∧ (r.contentType = apiResponse → goHasPfx r.body (str ("-ERR")) = true →
        respAsErr r = some (.msgErr r.body))
    ∧ (r.contentType ≠ disconnectNotice →
        (r.contentType = commandReply → goHasPfx r.text (str ("-ERR")) = false) →
        (r.contentType = apiResponse → goHasPfx r.body (str ("-ERR")) = false) →
        respAsErr r = none) := by
  refine ⟨?_, ?_, ?_, ?_⟩
  · intro h
    simp [respAsErr, h]
  · intro h hp
    have hne : commandReply ≠ disconnectNotice := by decide
    simp [respAsErr, h, hne, hp]
  · intro h hp
    have hne : apiResponse ≠ disconnectNotice := by decide
    have hne2 : apiResponse ≠ commandReply := by decide
    simp [respAsErr, h, hne, hne2, hp]
  · intro h1 h2 h3
    rw [respAsErr]
    rw [if_neg h1]
    by_cases hcr : r.contentType = commandReply
    · simp [hcr, h2 hcr]
    · rw [if_neg hcr]
      by_cases har : r.contentType = apiResponse
      · simp [har, h3 har]
      · rw [if_neg har]

/-- Witness for C5 at a failing command reply. -/
theorem respAsErr_classification_witness :
    respAsErr ⟨commandReply, str ("-ERR no"), [], []⟩
      = some (.msgErr (str ("-ERR no"))) :=
  (respAsErr_classification ⟨commandReply, str ("-ERR no"), [], []⟩).2.1
    (by decide) (by decide)

/-- C6: after the `auth` command is written, the reply frame must be a
command reply with text exactly `+OK accepted`; a command reply with any
other text fails with `ErrInvalidPassword`, any other content type fails
with the unexpected-content-type error, and only the exact `+OK accepted`
command reply yields success. -/
theorem connAuth_reply_classification (r1 r2 : Response)
    (h1 : r1.contentType = authRequest) :
    (connAuth (some r1) true (some r2) = .ok ↔
      (r2.contentType = commandReply ∧ r2.text = str ("+OK accepted")))
    ∧ (r2.contentType = commandReply → r2.text ≠ str ("+OK accepted") →
        connAuth (some r1) true (some r2) = .invalidPassword)
    ∧ (r2.contentType ≠ commandReply →
        connAuth (some r1) true (some r2) = .unexpectedRespCT r2.contentType) := by
  refine ⟨?_, ?_, ?_⟩
  · constructor
    · intro h
      rw [connAuth] at h
      simp [h1] at h
      by_cases hct : r2.contentType = commandReply
      · refine ⟨hct, ?_⟩
        by_cases htxt : r2.text = str ("+OK accepted")
        · exact htxt
        · simp [hct, htxt] at h
      · simp [hct] at h
    · rintro ⟨hct, htxt⟩
      simp [connAuth, h1, hct, htxt]
  · intro hct htxt
    simp [connAuth, h1, hct, htxt]
  · intro hct
    simp [connAuth, h1, hct]

/-- Witness for C6 at the exact accepted reply and an invalid-password
reply. -/
theorem connAuth_reply_classification_witness :
    connAuth (some ⟨authRequest, [], [], []⟩) true
      (some ⟨commandReply, str ("+OK accepted"), [], []⟩) = .ok
    ∧ connAuth (some ⟨authRequest, [], [], []⟩) true
      (some ⟨commandReply, str ("-ERR denied"), [], []⟩) = .invalidPassword :=
  ⟨((connAuth_reply_classification ⟨authRequest, [], [], []⟩
        ⟨commandReply, str ("+OK accepted"), [], []⟩ (by decide)).1).mpr
      ⟨by decide, by decide⟩,
   (connAuth_reply_classification ⟨authRequest, [], [], []⟩
        ⟨commandReply, str ("-ERR denied"), [], []⟩ (by decide)).2.1
      (by decide) (by decide)⟩

/-- Every native-table entry is non-empty, never case-folds to `all`, and
only the literal `CUSTOM` entry case-folds to `CUSTOM`. -/
theorem eventNames_facts : ∀ n ∈ eventNames,
    n ≠ [] ∧ goEqualFold n allStr = false
    ∧ (n ≠ customStr → goEqualFold n customStr = false) := by
  decide

/-- Appending to a non-empty group inserts a separating space. -/
theorem appendSp_ne (a s : Str) (h : a ≠ []) : appendSp a s = a ++ ' ' :: s := by
  simp [appendSp, h]

/-- Folding `appendSp` over names from a non-empty accumulator space-joins
them after the accumulator. -/
theorem foldl_appendSp (xs : List Str) : ∀ a : Str, a ≠ [] →
    List.foldl appendSp a xs = a ++ (if xs = [] then [] else ' ' :: sjoin xs) := by
  induction xs with
  | nil => intro a ha; simp
  | cons x xs ih =>
    intro a ha
    rw [List.foldl_cons, appendSp_ne a x ha]
    have hne : a ++ ' ' :: x ≠ [] := by simp
    rw [ih (a ++ ' ' :: x) hne]
    cases xs with
    | nil => simp [sjoin]
    | cons y ys => simp [sjoin]

/-- The loop of `buildEventNamesCmd` over table names other than `CUSTOM`
just accumulates them into the native group. -/
theorem benLoop_native (names : List Str) : ∀ native custom : Str, ∀ isCust : Bool,
    (∀ n ∈ names, n ∈ eventNames ∧ n ≠ customStr) →
    benLoop names native custom isCust
      = benFinish (List.foldl appendSp native names) custom isCust := by
  induction names with
  | nil => intro native custom isCust h; simp [benLoop]
  | cons n rest ih =>
    intro native custom isCust h
    obtain ⟨hmem, hnc⟩ := h n (by simp)
    obtain ⟨hne, hfa, hfc⟩ := eventNames_facts n hmem
    rw [benLoop]
    simp [hne, hfa, hfc hnc, hmem]
    rw [ih (appendSp native n) custom isCust (fun m hm => h m (by simp [hm]))]

/-- C4 (amended): `buildEventNamesCmd` returns `all` for no arguments or a
first name that case-folds to `all`; returns the documented strings on the
two mixed examples; and space-joins, preserving input order, any non-empty
list of native-table names other than the `CUSTOM` entry (the `CUSTOM`
table entry itself is instead recorded as the custom marker and moved to
the end, see the counterexample). -/
theorem buildEventNamesCmd_ok :
    buildEventNamesCmd [] = allStr
    ∧ (∀ s, goEqualFold s allStr = true → buildEventNamesCmd [s] = allStr)
    ∧ buildEventNamesCmd [str ("CUSTOM"), str ("conference::maintenance")]
        = str ("CUSTOM conference::maintenance")
    ∧ buildEventNamesCmd
        [str ("CHANNEL_CREATE"), str ("CUSTOM"), str ("sofia::register")]
        = str ("CHANNEL_CREATE CUSTOM sofia::register")
    ∧ (∀ names, names ≠ [] →
        (∀ n ∈ names, n ∈ eventNames ∧ n ≠ customStr) →
        buildEventNamesCmd names = sjoin names) := by
  refine ⟨by decide, ?_, by decide, by decide, ?_⟩
  · intro s h
    rw [buildEventNamesCmd]
    simp [h]
  · intro names hne h
    match names with
    | n0 :: rest =>
      obtain ⟨hmem, hnc⟩ := h n0 (by simp)
      obtain ⟨hn0, hfa, _⟩ := eventNames_facts n0 hmem
      rw [buildEventNamesCmd]
      rw [if_neg (by simp [hn0, hfa])]
      rw [benLoop_native (n0 :: rest) [] [] false h]
      rw [List.foldl_cons]
      have h0 : appendSp [] n0 = n0 := by simp [appendSp]
      rw [h0, foldl_appendSp rest n0 hn0]
      rw [benFinish]
      simp
      cases rest with
      | nil => simp [sjoin, hn0]
      | cons y ys => simp [sjoin, hn0]

/-- Witness for C4 applying the general parts at concrete inputs. -/
theorem buildEventNamesCmd_ok_witness :
    buildEventNamesCmd [str ("aLL")] = allStr
    ∧ buildEventNamesCmd [str ("CHANNEL_CREATE"), str ("HEARTBEAT")]
        = sjoin [str ("CHANNEL_CREATE"), str ("HEARTBEAT")] :=
  ⟨buildEventNamesCmd_ok.2.1 (str ("aLL")) (by decide),
   buildEventNamesCmd_ok.2.2.2.2 [str ("CHANNEL_CREATE"), str ("HEARTBEAT")]
     (by decide) (by decide)⟩

/-- Counterexample for C4 as stated: `CUSTOM` is itself a native-table
entry, yet a list of table names containing it does not come back in input
order — the `CUSTOM` token is moved to the end of the result. -/
theorem buildEventNamesCmd_order_counterexample :
    (∀ n ∈ [str ("CUSTOM"), str ("CHANNEL_CREATE")], n ∈ eventNames)
    ∧ buildEventNamesCmd [str ("CUSTOM"), str ("CHANNEL_CREATE")]
        = str ("CHANNEL_CREATE CUSTOM")
    ∧ str ("CHANNEL_CREATE CUSTOM")
        ≠ sjoin [str ("CUSTOM"), str ("CHANNEL_CREATE")] := by
  decide

/-- C10: the native-table lookup is case-sensitive: any single name outside
the table (in particular a case variant of a table entry such as
`channel_create`) that does not case-fold to `all` or `CUSTOM` is treated
as a custom name and placed after the literal `CUSTOM` token (with a
literal `CUSTOM ` lead stripped). -/
theorem buildEventNamesCmd_case_sensitive :
    buildEventNamesCmd [str ("channel_create")] = str ("CUSTOM channel_create")
    ∧ (∀ name, name ∉ eventNames → name ≠ [] →
        goEqualFold name allStr = false → goEqualFold name customStr = false →
        trimLead name (customStr ++ [' ']) ≠ [] →
        buildEventNamesCmd [name]
          = customStr ++ ' ' :: trimLead name (customStr ++ [' '])) := by
  refine ⟨by decide, ?_⟩
  intro name hmem hne hfa hfc hstrip
  rw [buildEventNamesCmd]
  rw [if_neg (by simp [hne, hfa])]
  rw [benLoop]
  simp [hne, hfa, hfc, hmem]
  rw [benLoop]
  rw [benFinish]
  have h0 : appendSp [] (trimLead name (customStr ++ [' ']))
      = trimLead name (customStr ++ [' ']) := by simp [appendSp]
  rw [h0]
  simp [hstrip, appendSp]

/-- Witness for C10 at a mixed-case variant of a table entry. -/
theorem buildEventNamesCmd_case_sensitive_witness :
    buildEventNamesCmd [str ("Heartbeat")] = str ("CUSTOM Heartbeat") :=
  buildEventNamesCmd_case_sensitive.2 (str ("Heartbeat"))
    (by decide) (by decide) (by decide) (by decide) (by decide)

/-- Decimal digit characters lie between `'0'` and `'9'`. -/
theorem digitChar_bounds (d : Nat) (h : d < 10) :
    '0' ≤ digitChar d ∧ digitChar d ≤ '9' := by
  interval_cases d <;> decide

/-- Byte value of a decimal digit character. -/
theorem digitChar_toNat (d : Nat) (h : d < 10) : (digitChar d).toNat = 48 + d := by
  interval_cases d <;> decide

/-- Every byte of a formatted decimal number is a digit. -/
theorem natToStr_digits (n : Nat) : ∀ c ∈ natToStr n, '0' ≤ c ∧ c ≤ '9' := by
  induction n using Nat.strong_induction_on with
  | _ n ih =>
    rw [natToStr]
    by_cases h : n < 10
    · simp [h]
      exact digitChar_bounds n h
    · simp [h]
      intro c hc
      rcases hc with hc | hc
      · exact ih (n / 10) (Nat.div_lt_self (by omega) (by omega)) c hc
      · rw [hc]
        exact digitChar_bounds (n % 10) (Nat.mod_lt n (by omega))

/-- A formatted decimal number is never empty. -/
theorem natToStr_ne (n : Nat) : natToStr n ≠ [] := by
  rw [natToStr]
  by_cases h : n < 10 <;> simp [h]

/-- Folding the decimal accumulator over a formatted number recovers it. -/
theorem foldl_decStep_natToStr (n : Nat) :
    (natToStr n).foldl decStep (some 0) = some n := by
  induction n using Nat.strong_induction_on with
  | _ n ih =>
    rw [natToStr]
    by_cases h : n < 10
    · simp [h, decStep, digitChar_bounds n h, digitChar_toNat n h]
    · simp only [h, dite_false]
      rw [List.foldl_append]
      rw [ih (n / 10) (Nat.div_lt_self (by omega) (by omega))]
      have hm : n % 10 < 10 := Nat.mod_lt n (by omega)
      simp [decStep, digitChar_bounds (n % 10) hm, digitChar_toNat (n % 10) hm]
      omega

/-- Decimal parsing inverts decimal formatting. -/
theorem decVal_natToStr (n : Nat) : decVal (natToStr n) = some n := by
  rw [decVal, if_neg (natToStr_ne n)]
  exact foldl_decStep_natToStr n

/-- `strconv.ParseInt` on a formatted non-negative decimal: the value when
it fits in an int64, the clamped maximum (with the error flag) when it does
not. -/
theorem goParseInt_natToStr (n : Nat) :
    goParseInt (natToStr n)
      = if n ≤ 2 ^ 63 - 1 then ((n : Int), true) else ((2 ^ 63 - 1 : Int), false) := by
  match hs : natToStr n with
  | [] => exact absurd hs (natToStr_ne n)
  | c :: rest =>
    have hd : '0' ≤ c ∧ c ≤ '9' := natToStr_digits n c (by rw [hs]; simp)
    have hminus : ¬(c = '-') := by
      rintro rfl
      exact absurd hd (by decide)
    have hplus : ¬(c = '+') := by
      rintro rfl
      exact absurd hd (by decide)
    rw [goParseInt]
    simp only [hminus, hplus, or_self, if_false]
    rw [← hs, decVal_natToStr n]
    by_cases hle : n ≤ 2 ^ 63 - 1 <;> simp [hle]

/-- Folding the decimal accumulator from a failed state stays failed. -/
theorem foldl_decStep_none : ∀ s : Str, s.foldl decStep none = none
  | [] => rfl
  | _ :: t => foldl_decStep_none t

/-- Any non-digit byte makes the decimal fold fail. -/
theorem foldl_decStep_bad : ∀ (s : Str) (acc : Option Nat),
    (∃ d ∈ s, ¬('0' ≤ d ∧ d ≤ '9')) → s.foldl decStep acc = none := by
  intro s
  induction s with
  | nil =>
    rintro acc ⟨d, hd, _⟩
    simp at hd
  | cons c t ih =>
    rintro acc ⟨d, hd, hbad⟩
    rw [List.foldl_cons]
    rcases List.mem_cons.mp hd with heq | hdt
    · subst heq
      have hstep : decStep acc d = none := by
        cases acc with
        | none => rfl
        | some a =>
          show (if '0' ≤ d ∧ d ≤ '9' then some (10 * a + (d.toNat - 48))
                else none) = none
          rw [if_neg hbad]
      rw [hstep]
      exact foldl_decStep_none t
    · exact ih (decStep acc c) ⟨d, hdt, hbad⟩

/-- A digit string that is empty or holds a non-digit has no decimal
value. -/
theorem decVal_bad (digits : Str)
    (h : digits = [] ∨ ∃ d ∈ digits, ¬('0' ≤ d ∧ d ≤ '9')) :
    decVal digits = none := by
  rcases h with rfl | hbad
  · rfl
  · rw [decVal]
    by_cases hnil : digits = []
    · rw [if_pos hnil]
    · rw [if_neg hnil]
      exact foldl_decStep_bad digits (some 0) hbad

/-- `strconv.ParseInt` on a syntactically invalid value: value `0` with the
error flag. -/
theorem goParseInt_bad (s : Str) (h : Int64SyntaxBad s) :
    goParseInt s = (0, false) := by
  cases s with
  | nil => rfl
  | cons c rest =>
    rw [goParseInt]
    rw [decVal_bad _ h]

/-- `strconv.ParseInt` on a minus sign followed by a formatted decimal: the
negated value when it fits in an int64, the clamped int64 minimum (with the
error flag) when it does not. -/
theorem goParseInt_neg_natToStr (m : Nat) :
    goParseInt ('-' :: natToStr m)
      = if m ≤ 2 ^ 63 then (-(m : Int), true) else (-(2 ^ 63 : Int), false) := by
  have h1 : goParseInt ('-' :: natToStr m)
      = (match decVal (natToStr m) with
         | none => ((0 : Int), false)
         | some d =>
           if d ≤ 2 ^ 63 then (-(d : Int), true)
           else (-(2 ^ 63 : Int), false)) := rfl
  rw [h1, decVal_natToStr m]

/-- C8 (amended): `Sequence` parses `Event-Sequence` as an int64, returning
the (possibly negative) value when it fits, `0` when the header is absent
or syntactically invalid, but the clamped int64 extreme — maximum or
minimum, not `0` — when the value is out of range; `Timestamp` returns
`Event-Date-Timestamp` as microseconds since the Unix epoch when it parses,
and on absence, a syntax error or an out-of-range value returns Go's zero
`time.Time` (January 1, year 1 — not the Unix epoch). -/
theorem event_sequence_timestamp (e : Event) (n : Nat) :
    (hlookup e.headers (str ("Event-Sequence")) = natToStr n → n ≤ 2 ^ 63 - 1 →
        eventSequence e = n)
    ∧ (hlookup e.headers (str ("Event-Sequence")) = natToStr n → 2 ^ 63 - 1 < n →
        eventSequence e = 2 ^ 63 - 1)
    ∧ (hlookup e.headers (str ("Event-Sequence")) = [] → eventSequence e = 0)
    ∧ (hlookup e.headers (str ("Event-Date-Timestamp")) = natToStr n →
        n ≤ 2 ^ 63 - 1 → eventTimestampMicro e = n)
    ∧ (hlookup e.headers (str ("Event-Date-Timestamp")) = [] →
        eventTimestampMicro e = zeroTimeMicro)
    ∧ (hlookup e.headers (str ("Event-Date-Timestamp")) = natToStr n →
        2 ^ 63 - 1 < n → eventTimestampMicro e = zeroTimeMicro)
    ∧ (Int64SyntaxBad (hlookup e.headers (str ("Event-Sequence"))) →
        eventSequence e = 0)
    ∧ (Int64SyntaxBad (hlookup e.headers (str ("Event-Date-Timestamp"))) →
        eventTimestampMicro e = zeroTimeMicro)
    ∧ (hlookup e.headers (str ("Event-Sequence")) = '-' :: natToStr n →
        n ≤ 2 ^ 63 → eventSequence e = -(n : Int))
    ∧ (hlookup e.headers (str ("Event-Sequence")) = '-' :: natToStr n →
        2 ^ 63 < n → eventSequence e = -(2 ^ 63 : Int))
    ∧ (hlookup e.headers (str ("Event-Date-Timestamp")) = '-' :: natToStr n →
        n ≤ 2 ^ 63 → eventTimestampMicro e = -(n : Int))
    ∧ (hlookup e.headers (str ("Event-Date-Timestamp")) = '-' :: natToStr n →
        2 ^ 63 < n → eventTimestampMicro e = zeroTimeMicro) := by
  refine ⟨?_, ?_, ?_, ?_, ?_, ?_, ?_, ?_, ?_, ?_, ?_, ?_⟩
  · intro h hle
    rw [eventSequence, h, goParseInt_natToStr n, if_pos hle]
  · intro h hgt
    rw [eventSequence, h, goParseInt_natToStr n, if_neg (by omega)]
  · intro h
    rw [eventSequence, h]
    rfl
  · intro h hle
    rw [eventTimestampMicro, h, goParseInt_natToStr n]
    rw [if_pos hle]
    simp
  · intro h
    rw [eventTimestampMicro, h]
    rfl
  · intro h hgt
    rw [eventTimestampMicro, h, goParseInt_natToStr n]
    rw [if_neg (show ¬(n ≤ 2 ^ 63 - 1) by omega)]
    simp
  · intro h
    rw [eventSequence, goParseInt_bad _ h]
  · intro h
    rw [eventTimestampMicro, goParseInt_bad _ h]
    rfl
  · intro h hle
    rw [eventSequence, h, goParseInt_neg_natToStr n, if_pos hle]
  · intro h hgt
    rw [eventSequence, h, goParseInt_neg_natToStr n, if_neg (by omega)]
  · intro h hle
    rw [eventTimestampMicro, h, goParseInt_neg_natToStr n]
    rw [if_pos hle]
    simp
  · intro h hgt
    rw [eventTimestampMicro, h, goParseInt_neg_natToStr n]
    rw [if_neg (show ¬(n ≤ 2 ^ 63) by omega)]
    simp

/-- Witness for C8 at a parseable sequence, an absent timestamp, a
syntactically invalid sequence, and a negative sequence. -/
theorem event_sequence_timestamp_witness :
    eventSequence ⟨[(str ("Event-Sequence"), str ("42"))], []⟩ = (42 : Nat)
    ∧ eventTimestampMicro ⟨[(str ("Event-Sequence"), str ("42"))], []⟩
        = zeroTimeMicro
    ∧ eventSequence ⟨[(str ("Event-Sequence"), str ("abc"))], []⟩ = 0
    ∧ eventSequence ⟨[(str ("Event-Sequence"), str ("-42"))], []⟩ = -(42 : Int) :=
  ⟨(event_sequence_timestamp ⟨[(str ("Event-Sequence"), str ("42"))], []⟩ 42).1
      (by rw [show natToStr 42 = str ("42") by rw [natToStr, natToStr]; decide]; decide)
      (by norm_num),
   (event_sequence_timestamp ⟨[(str ("Event-Sequence"), str ("42"))], []⟩ 42).2.2.2.2.1
      (by decide),
   (event_sequence_timestamp ⟨[(str ("Event-Sequence"), str ("abc"))], []⟩ 0).2.2.2.2.2.2.1
      (Or.inr ⟨'a', by decide, by decide⟩),
   (event_sequence_timestamp ⟨[(str ("Event-Sequence"), str ("-42"))], []⟩ 42).2.2.2.2.2.2.2.2.1
      (by rw [show natToStr 42 = str ("42") by rw [natToStr, natToStr]; decide]; decide)
      (by norm_num)⟩

/-- Counterexample for C8 as stated: an out-of-range `Event-Sequence` does
not default to zero but to the clamped int64 maximum, and a missing
`Event-Date-Timestamp` yields Go's zero time, which is not the Unix epoch
(microsecond value 0). -/
theorem event_sequence_timestamp_counterexample :
    eventSequence ⟨[(str ("Event-Sequence"), str ("9223372036854775808"))], []⟩
      = 9223372036854775807
    ∧ (9223372036854775807 : Int) ≠ 0
    ∧ eventTimestampMicro ⟨[], []⟩ = -62135596800000000
    ∧ (-62135596800000000 : Int) ≠ 0 := by
  refine ⟨?_, by decide, by decide, by decide⟩
  decide

/-- Looking up a key that is not in the map yields the zero value. -/
theorem hlookup_not_mem : ∀ (l : Headers) (k : Str), k ∉ l.map Prod.fst →
    hlookup l k = []
  | [], _, _ => rfl
  | (k', v') :: t, k, h => by
    have h1 : ¬(k = k') := by
      intro hk
      exact h (by rw [List.map_cons, hk]; exact List.mem_cons_self _ _)
    have h2 : k ∉ t.map Prod.fst := by
      intro hm
      exact h (by rw [List.map_cons]; exact List.mem_cons_of_mem _ hm)
    show (if k = k' then v' else hlookup t k) = []
    rw [if_neg h1]
    exact hlookup_not_mem t k h2

/-- Inserting then looking up the same key yields the inserted value. -/
theorem hlookup_hinsert_self : ∀ (l : Headers) (k v : Str),
    hlookup (hinsert l k v) k = v
  | [], k, v => by simp [hinsert, hlookup]
  | (k', v') :: t, k, v => by
    by_cases h1 : k < k'
    · simp [hinsert, h1, hlookup]
    · by_cases h2 : k = k'
      · simp [hinsert, h1, h2, hlookup]
      · simp only [hinsert, if_neg h1, if_neg h2]
        show (if k = k' then v' else hlookup (hinsert t k v) k) = v
        rw [if_neg h2]
        exact hlookup_hinsert_self t k v

/-- Deleting a freshly inserted key restores a map that did not hold it. -/
theorem hdelete_hinsert : ∀ (l : Headers) (k v : Str), k ∉ l.map Prod.fst →
    hdelete (hinsert l k v) k = l
  | [], k, v, _ => by simp [hinsert, hdelete]
  | (k', v') :: t, k, v, h => by
    have h1 : ¬(k = k') := by
      intro hk
      exact h (by rw [List.map_cons, hk]; exact List.mem_cons_self _ _)
    have h2 : k ∉ t.map Prod.fst := by
      intro hm
      exact h (by rw [List.map_cons]; exact List.mem_cons_of_mem _ hm)
    by_cases hlt : k < k'
    · simp only [hinsert, if_pos hlt]
      show (if k = k then (k', v') :: t else _) = (k', v') :: t
      rw [if_pos rfl]
    · simp only [hinsert, if_neg hlt, if_neg h1]
      show (if k = k' then hinsert t k v else (k', v') :: hdelete (hinsert t k v) k)
          = (k', v') :: t
      rw [if_neg h1, hdelete_hinsert t k v h2]

/-- Key membership after an insert. -/
theorem mem_keys_hinsert : ∀ (l : Headers) (k v k' : Str),
    k' ∈ (hinsert l k v).map Prod.fst ↔ (k' ∈ l.map Prod.fst ∨ k' = k)
  | [], k, v, k' => by simp [hinsert]
  | (k0, v0) :: t, k, v, k' => by
    by_cases h1 : k < k0
    · simp only [hinsert, if_pos h1, List.map_cons, List.mem_cons]
      tauto
    · by_cases h2 : k = k0
      · subst h2
        simp only [hinsert, if_neg h1, if_true, List.map_cons, List.mem_cons]
        tauto
      · simp only [hinsert, if_neg h1, if_neg h2, List.map_cons, List.mem_cons,
          mem_keys_hinsert t k v k']
        tauto

/-- C2 (amended): at the JSON-object level, `MarshalJSON` produces exactly
the event's header fields plus a `_body` field when the body is non-empty,
and `UnmarshalJSON` inverts it, provided the event's own headers do not
already use the reserved `_body` key (see the counterexample for why that
proviso is necessary). -/
theorem event_json_roundtrip (e : Event)
    (hk : bodyKey ∉ e.headers.map Prod.fst) :
    (∀ k, k ∈ (eventMarshalJSON e).map Prod.fst ↔
        (k ∈ e.headers.map Prod.fst ∨ (0 < e.body.length ∧ k = bodyKey)))
    ∧ eventUnmarshalJSON (eventMarshalJSON e) = e := by
  constructor
  · intro k
    by_cases hb : 0 < e.body.length
    · rw [eventMarshalJSON, if_pos hb, mem_keys_hinsert e.headers bodyKey e.body k]
      constructor
      · rintro (h | h)
        · exact Or.inl h
        · exact Or.inr ⟨hb, h⟩
      · rintro (h | ⟨_, h⟩)
        · exact Or.inl h
        · exact Or.inr h
    · rw [eventMarshalJSON, if_neg hb]
      constructor
      · exact fun h => Or.inl h
      · rintro (h | ⟨hb2, _⟩)
        · exact h
        · exact absurd hb2 hb
  · by_cases hb : 0 < e.body.length
    · have hbne : e.body ≠ [] := by
        intro hnil
        rw [hnil] at hb
        simp at hb
      rw [eventMarshalJSON, if_pos hb]
      rw [eventUnmarshalJSON]
      rw [hlookup_hinsert_self e.headers bodyKey e.body]
      rw [if_pos hbne]
      rw [hdelete_hinsert e.headers bodyKey e.body hk]
    · have hbe : e.body = [] := by
        cases hbody : e.body with
        | nil => rfl
        | cons c t => rw [hbody] at hb; exact absurd (by simp) hb
      rw [eventMarshalJSON, if_neg hb]
      rw [eventUnmarshalJSON]
      rw [hlookup_not_mem e.headers bodyKey hk]
      rw [if_neg (by simp)]
      rw [← hbe]

/-- Witness for C2 at an event with one header and a body. -/
theorem event_json_roundtrip_witness :
    eventUnmarshalJSON
      (eventMarshalJSON ⟨[(str ("Event-Name"), str ("HEARTBEAT"))], str ("hi")⟩)
      = ⟨[(str ("Event-Name"), str ("HEARTBEAT"))], str ("hi")⟩ :=
  (event_json_roundtrip ⟨[(str ("Event-Name"), str ("HEARTBEAT"))], str ("hi")⟩
    (by decide)).2

/-- Counterexample for C2 as stated: an event whose headers already hold a
`_body` key is not restored by unmarshal-after-marshal — the `_body` header
is moved into the binary body instead. -/
theorem event_json_roundtrip_counterexample :
    eventUnmarshalJSON (eventMarshalJSON ⟨[(bodyKey, str ("x"))], []⟩)
      = ⟨[], str ("x")⟩
    ∧ (⟨[], str ("x")⟩ : Event) ≠ ⟨[(bodyKey, str ("x"))], []⟩ := by
  decide

/-- Looking up a key present in a map with no duplicate keys finds its
value. -/
theorem hlookup_eq_of_mem : ∀ (l : Headers) (k v : Str), (k, v) ∈ l →
    (l.map Prod.fst).Nodup → hlookup l k = v
  | [], k, v, h, _ => absurd h (by simp)
  | (k0, v0) :: t, k, v, h, hnd => by
    rw [List.map_cons, List.nodup_cons] at hnd
    rcases List.mem_cons.mp h with heq | hmem
    · injection heq with h1 h2
      subst h1
      subst h2
      show (if k = k then v else hlookup t k) = v
      rw [if_pos rfl]
    · have hne : ¬(k = k0) := by
        intro hk
        have hkm : k ∈ t.map Prod.fst := List.mem_map_of_mem Prod.fst hmem
        rw [hk] at hkm
        exact hnd.1 hkm
      show (if k = k0 then v0 else hlookup t k) = v
      rw [if_neg hne]
      exact hlookup_eq_of_mem t k v hmem hnd.2

/-- Permuting an association list with no duplicate keys does not change
any lookup (this is what makes an association list a faithful model of an
unordered Go map). -/
theorem hlookup_perm (l₁ l₂ : Headers) (hp : l₁.Perm l₂)
    (hnd : (l₁.map Prod.fst).Nodup) (k : Str) :
    hlookup l₁ k = hlookup l₂ k := by
  by_cases hm : k ∈ l₁.map Prod.fst
  · obtain ⟨p, hpmem, hfst⟩ := List.mem_map.mp hm
    obtain ⟨k0, v0⟩ := p
    subst hfst
    rw [hlookup_eq_of_mem l₁ k0 v0 hpmem hnd]
    rw [hlookup_eq_of_mem l₂ k0 v0 (hp.mem_iff.mp hpmem)
      ((hp.map Prod.fst).nodup_iff.mp hnd)]
  · rw [hlookup_not_mem l₁ k hm]
    rw [hlookup_not_mem l₂ k (fun h => hm ((hp.map Prod.fst).mem_iff.mpr h))]

/-- C3: the header block of `command.WriteTo` lists keys in strictly
ascending lexicographic order, and the serialized output is identical for
any two insertion orders (modelled as any two permutations of the header
association list) of the same header map. -/
theorem cmd_writeTo_sorted_deterministic (c : Command) (hs2 : List (Str × Str))
    (hnd : (c.headers.map Prod.fst).Nodup) (hperm : c.headers.Perm hs2) :
    List.Pairwise (· < ·) (cmdSortedKeys c)
    ∧ cmdWriteTo { c with headers := hs2 } = cmdWriteTo c := by
  have hkeys : cmdSortedKeys { c with headers := hs2 } = cmdSortedKeys c := by
    refine List.eq_of_perm_of_sorted ?_
      (List.sorted_insertionSort _ _) (List.sorted_insertionSort _ _)
    exact (List.perm_insertionSort _ _).trans
      ((hperm.symm.map Prod.fst).trans (List.perm_insertionSort _ _).symm)
  constructor
  · have hsorted : List.Sorted (· ≤ ·) (cmdSortedKeys c) :=
      List.sorted_insertionSort _ _
    have hnd2 : (cmdSortedKeys c).Nodup :=
      (List.perm_insertionSort _ _).nodup_iff.mpr hnd
    exact hsorted.and hnd2 |>.imp (fun h => lt_of_le_of_ne h.1 h.2)
  · have hlook : ∀ k, hlookup hs2 k = hlookup c.headers k :=
      fun k => (hlookup_perm c.headers hs2 hperm hnd k).symm
    have hiff : (hs2 ≠ []) = (c.headers ≠ []) := by
      apply propext
      constructor
      · intro h2 h1
        rw [h1] at hperm
        exact h2 hperm.nil_eq.symm
      · intro h1 h2
        rw [h2] at hperm
        exact h1 hperm.symm.nil_eq.symm
    rw [cmdWriteTo, cmdWriteTo]
    simp only [hkeys, hlook, hiff]

/-- Witness for C3 at a two-header command given in two insertion orders. -/
theorem cmd_writeTo_sorted_deterministic_witness :
    List.Pairwise (· < ·)
      (cmdSortedKeys ⟨str ("sendevent"), str ("SEND_INFO"), [],
        [(str ("profile"), str ("external")), (str ("content-type"), str ("text/plain"))],
        str ("test")⟩)
    ∧ cmdWriteTo ⟨str ("sendevent"), str ("SEND_INFO"), [],
        [(str ("content-type"), str ("text/plain")), (str ("profile"), str ("external"))],
        str ("test")⟩
      = cmdWriteTo ⟨str ("sendevent"), str ("SEND_INFO"), [],
        [(str ("profile"), str ("external")), (str ("content-type"), str ("text/plain"))],
        str ("test")⟩ :=
  cmd_writeTo_sorted_deterministic
    ⟨str ("sendevent"), str ("SEND_INFO"), [],
      [(str ("profile"), str ("external")), (str ("content-type"), str ("text/plain"))],
      str ("test")⟩
    [(str ("content-type"), str ("text/plain")), (str ("profile"), str ("external"))]
    (by decide) (by decide)

/-- Splitting a newline-terminated line off recovers the line and the
rest. -/
theorem splitLine_append : ∀ (l r : Str), '\n' ∉ l →
    splitLine (l ++ '\n' :: r) = some (l, r) := by
  intro l
  induction l with
  | nil => intro r _; rfl
  | cons c t ih =>
    intro r h
    have hc : ¬(c = '\n') := fun hh => h (by rw [hh]; exact List.mem_cons_self _ _)
    have ht : '\n' ∉ t := fun hh => h (List.mem_cons_of_mem _ hh)
    rw [List.cons_append, splitLine.eq_def]
    split
    · rename_i heq
      exact absurd heq (List.cons_ne_nil _ _)
    · rename_i rest heq
      injection heq with h1 h2
      exact absurd h1 hc
    · rename_i heq
      injection heq with h1 h2
      subst h1
      subst h2
      rw [ih r ht]
      rfl

/-- Splitting a line at its first colon, when the key holds none. -/
theorem splitColonAux_append : ∀ (k r : Str), ':' ∉ k →
    splitColonAux (k ++ ':' :: r) = some (k, r) := by
  intro k
  induction k with
  | nil => intro r _; rfl
  | cons c t ih =>
    intro r h
    have hc : ¬(c = ':') := fun hh => h (by rw [hh]; exact List.mem_cons_self _ _)
    have ht : ':' ∉ t := fun hh => h (List.mem_cons_of_mem _ hh)
    rw [List.cons_append, splitColonAux.eq_def]
    split
    · rename_i heq
      exact absurd heq (List.cons_ne_nil _ _)
    · rename_i rest heq
      injection heq with h1 h2
      exact absurd h1 hc
    · rename_i heq
      injection heq with h1 h2
      subst h1
      subst h2
      rw [ih r ht]
      rfl

/-- Values without embedded newlines pass the newline replacer unchanged. -/
theorem skipNewLines_id : ∀ v : Str, '\n' ∉ v → skipNewLines v = v := by
  intro v
  induction v with
  | nil => intro _; rfl
  | cons c t ih =>
    intro h
    have hc : ¬(c = '\n') := fun hh => h (by rw [hh]; exact List.mem_cons_self _ _)
    have ht : '\n' ∉ t := fun hh => h (List.mem_cons_of_mem _ hh)
    rw [skipNewLines.eq_def]
    split
    · rename_i heq
      exact absurd heq (List.cons_ne_nil _ _)
    · rename_i rest heq
      injection heq with h1 h2
      rw [h2] at ht
      exact absurd (List.mem_cons_self _ _) ht
    · rename_i rest heq
      injection heq with h1 h2
      exact absurd h1 hc
    · rename_i heq
      injection heq with h1 h2
      subst h1
      subst h2
      rw [ih ht]

/-- Values without a percent byte pass `url.PathUnescape` unchanged. -/
theorem pathUnescape_no_pct : ∀ s : Str, '%' ∉ s → pathUnescape s = some s := by
  intro s
  induction s with
  | nil => intro _; rfl
  | cons c t ih =>
    intro h
    have hc : ¬(c = '%') := fun hh => h (by rw [hh]; exact List.mem_cons_self _ _)
    have ht : '%' ∉ t := fun hh => h (List.mem_cons_of_mem _ hh)
    rw [pathUnescape.eq_def]
    split
    · rename_i heq
      exact absurd heq (List.cons_ne_nil _ _)
    · rename_i a b rest heq
      injection heq with h1 h2
      exact absurd h1 hc
    · rename_i heq
      injection heq with h1 h2
      exact absurd h1 hc
    · rename_i heq
      injection heq with h1 h2
      subst h1
      subst h2
      rw [ih ht]
      rfl

/-- Best-effort unescape is the identity on percent-free values. -/
theorem pathUnescapeBE_no_pct (s : Str) (h : '%' ∉ s) : pathUnescapeBE s = s := by
  rw [pathUnescapeBE, pathUnescape_no_pct s h]
  rfl

/-- A byte outside the digit range does not occur in a formatted decimal
number. -/
theorem not_mem_natToStr (n : Nat) (d : Char) (hd : ¬('0' ≤ d ∧ d ≤ '9')) :
    d ∉ natToStr n := by
  intro hm
  exact hd (natToStr_digits n d hm)

/-- A formatted decimal number is untouched by left-trimming. -/
theorem trimLeft_natToStr (n : Nat) : trimLeft (natToStr n) = natToStr n := by
  cases hs : natToStr n with
  | nil => rfl
  | cons c t =>
    have hc : '0' ≤ c ∧ c ≤ '9' := natToStr_digits n c (by rw [hs]; simp)
    have h1 : ¬(c = ' ' ∨ c = '\t') := by
      rintro (rfl | rfl) <;> exact absurd hc (by decide)
    rw [trimLeft, if_neg h1]

/-- Inserting a key greater than every key of the map appends at the end. -/
theorem hinsert_append_gt : ∀ (l : Headers) (k v : Str),
    (∀ p ∈ l, p.1 < k) → hinsert l k v = l ++ [(k, v)]
  | [], k, v, _ => rfl
  | (k0, v0) :: t, k, v, h => by
    have h0 : k0 < k := h (k0, v0) (by simp)
    have hlt : ¬(k < k0) := by
      intro hk
      exact absurd (hk.trans h0) (lt_irrefl k)
    have hne : ¬(k = k0) := by
      intro hk
      rw [hk] at h0
      exact absurd h0 (lt_irrefl k0)
    simp only [hinsert, if_neg hlt, if_neg hne, List.cons_append]
    rw [hinsert_append_gt t k v (fun p hp => h p (List.mem_cons_of_mem _ hp))]

/-- Folding map insertion over an ascending pair list starting from a map
below it simply appends the list. -/
theorem foldl_hinsert_sorted : ∀ (hs acc : Headers),
    List.Pairwise (fun a b => a.1 < b.1) (acc ++ hs) →
    hs.foldl (fun a p => hinsert a p.1 p.2) acc = acc ++ hs := by
  intro hs
  induction hs with
  | nil => intro acc _; simp
  | cons p t ih =>
    intro acc hp
    rw [List.foldl_cons]
    have hgt : ∀ q ∈ acc, q.1 < p.1 := by
      intro q hq
      have := (List.pairwise_append.mp hp).2.2 q hq p (by simp)
      exact this
    have hstep : hinsert acc p.1 p.2 = acc ++ [p] := hinsert_append_gt acc p.1 p.2 hgt
    rw [hstep, ih (acc ++ [p]) (by rw [List.append_assoc]; simpa using hp)]
    simp

/-- One header line is consumed by the parser loop exactly as written: the
key and value land in the accumulator map. -/
theorem parseHeaders_line (k v t : Str) (acc : Headers)
    (hk : k ≠ []) (hkc : ':' ∉ k) (hkn : '\n' ∉ k)
    (hvn : '\n' ∉ v) (hvt : trimLeft v = v) (hvu : pathUnescapeBE v = v) :
    parseHeaders ((k ++ ':' :: ' ' :: v) ++ '\n' :: t) acc
      = parseHeaders t (hinsert acc k v) := by
  have hline : '\n' ∉ (k ++ ':' :: ' ' :: v) := by
    intro hm
    rcases List.mem_append.mp hm with hm | hm
    · exact hkn hm
    · rcases List.mem_cons.mp hm with hm | hm
      · exact absurd hm.symm (by decide)
      · rcases List.mem_cons.mp hm with hm | hm
        · exact absurd hm.symm (by decide)
        · exact hvn hm
  have hsl : splitLine ((k ++ ':' :: ' ' :: v) ++ '\n' :: t)
      = some (k ++ ':' :: ' ' :: v, t) := splitLine_append _ _ hline
  rw [parseHeaders.eq_def]
  split
  · rename_i heq
    rw [heq] at hsl
    exact absurd hsl (by simp)
  · rename_i line rest heq
    rw [heq] at hsl
    injection hsl with hsl
    injection hsl with hsl1 hsl2
    subst hsl1
    subst hsl2
    have hnn : ¬((k ++ ':' :: ' ' :: v) = [] ∨ (k ++ ':' :: ' ' :: v) = ['\r']) := by
      rintro (hh | hh)
      · cases hk (List.append_eq_nil.mp hh).1
      · have : (k ++ ':' :: ' ' :: v).length = 1 := by rw [hh]; rfl
        rw [List.length_append] at this
        simp at this
        omega
    rw [if_neg hnn]
    rw [splitColonAux_append k (' ' :: v) hkc]
    simp only []
    rw [if_neg hk]
    have hval : pathUnescapeBE (trimLeft (' ' :: v)) = v := by
      have h1 : trimLeft (' ' :: v) = trimLeft v := by
        rw [trimLeft.eq_def]
        simp
      rw [h1, hvt, hvu]
    rw [hval]

/-- The parser loop stops at a blank line, handing back the bytes after
it. -/
theorem parseHeaders_blank (t : Str) (acc : Headers) :
    parseHeaders ('\n' :: t) acc = .ok (acc, t) := by
  rw [parseHeaders.eq_def]
  split
  · rename_i heq
    exact absurd heq (by rw [splitLine]; simp)
  · rename_i line rest heq
    rw [show splitLine ('\n' :: t) = some ([], t) from rfl] at heq
    injection heq with heq
    injection heq with h1 h2
    subst h1
    subst h2
    rw [if_pos (Or.inl rfl)]

/-- The parser loop returns the accumulated headers at the end of input. -/
theorem parseHeaders_nil (acc : Headers) : parseHeaders [] acc = .ok (acc, []) := by
  rw [parseHeaders.eq_def]
  split
  · rfl
  · rename_i line rest heq
    exact absurd heq (by rw [splitLine]; simp)

/-- A whole wire-safe header block is consumed by the parser loop into the
accumulator, in order. -/
theorem parseHeaders_block : ∀ (hs : Headers) (t : Str) (acc : Headers),
    (∀ p ∈ hs, WireSafeHeader p) →
    parseHeaders ((hs.map (fun p => headerLine p.1 p.2)).flatten ++ t) acc
      = parseHeaders t (hs.foldl (fun a p => hinsert a p.1 p.2) acc) := by
  intro hs
  induction hs with
  | nil => intro t acc _; simp
  | cons p ps ih =>
    intro t acc h
    obtain ⟨hk, hkc, hkn, _, hvn, hvt, hvu⟩ := h p (by simp)
    have hskip : skipNewLines p.2 = p.2 := skipNewLines_id p.2 hvn
    have hshape : (((p :: ps).map (fun q => headerLine q.1 q.2)).flatten ++ t)
        = (p.1 ++ ':' :: ' ' :: p.2)
            ++ '\n' :: ((ps.map (fun q => headerLine q.1 q.2)).flatten ++ t) := by
      rw [List.map_cons, List.flatten_cons, headerLine, hskip, str]
      simp [List.append_assoc]
    rw [hshape]
    rw [parseHeaders_line p.1 p.2 _ acc hk hkc hkn hvn hvt hvu]
    rw [ih _ _ (fun q hq => h q (List.mem_cons_of_mem _ hq))]
    rw [List.foldl_cons]

/-- Insertion sort leaves an already-sorted list unchanged. -/
theorem insertionSort_sorted_eq (l : List Str) (h : List.Sorted (· ≤ ·) l) :
    List.insertionSort (· ≤ ·) l = l :=
  List.eq_of_perm_of_sorted (List.perm_insertionSort _ l)
    (List.sorted_insertionSort _ l) h

/-- In a map with canonical (strictly ascending) keys, the keys are weakly
sorted. -/
theorem hsorted_keys_sorted (hs : Headers) (h : HSorted hs) :
    List.Sorted (· ≤ ·) (hs.map Prod.fst) :=
  (List.pairwise_map.mpr (h.imp (fun hab => le_of_lt hab)))

/-- In a map with canonical keys, the keys are distinct. -/
theorem hsorted_keys_nodup (hs : Headers) (h : HSorted hs) :
    (hs.map Prod.fst).Nodup :=
  (List.pairwise_map.mpr (h.imp (fun hab => ne_of_lt hab)))

/-- Mapping a two-argument function over the keys with their looked-up
values is mapping it over the entries, when keys are distinct. -/
theorem map_keys_lookup (f : Str → Str → Str) : ∀ hs : Headers,
    (hs.map Prod.fst).Nodup →
    (hs.map Prod.fst).map (fun k => f k (hlookup hs k))
      = hs.map (fun p => f p.1 p.2)
  | [], _ => rfl
  | (k0, v0) :: t, hnd => by
    rw [List.map_cons, List.nodup_cons] at hnd
    rw [List.map_cons, List.map_cons, List.map_cons]
    congr 1
    · show f k0 (if k0 = k0 then v0 else hlookup t k0) = f k0 v0
      rw [if_pos rfl]
    · have hstep : ∀ k ∈ t.map Prod.fst,
          f k (hlookup ((k0, v0) :: t) k) = f k (hlookup t k) := by
        intro k hkm
        have hne : ¬(k = k0) := fun hh => hnd.1 (hh ▸ hkm)
        show f k (if k = k0 then v0 else hlookup t k) = f k (hlookup t k)
        rw [if_neg hne]
      rw [List.map_congr_left hstep]
      exact map_keys_lookup f t hnd.2

/-- For a wire-safe event the serialized form is the in-order header block
followed by the `Content-Length` line, blank line and body (for a non-empty
body). -/
theorem eventWriteTo_eq (e : Event) (hws : WireSafe e) :
    eventWriteTo e
      = (e.headers.map (fun p => headerLine p.1 p.2)).flatten
        ++ (if 0 < e.body.length then
              contentLengthKey ++ str (": ") ++ natToStr e.body.length
                ++ str ("\n\n") ++ e.body
            else []) := by
  obtain ⟨hsorted, hsafe⟩ := hws
  rw [eventWriteTo]
  congr 1
  have hfilter : (e.headers.map Prod.fst).filter
      (fun k => !goEqualFold k contentLengthKey) = e.headers.map Prod.fst := by
    apply List.filter_eq_self.mpr
    intro k hk
    obtain ⟨p, hpmem, hfst⟩ := List.mem_map.mp hk
    obtain ⟨_, _, _, hfold, _⟩ := hsafe p hpmem
    rw [← hfst, hfold]
    rfl
  rw [hfilter]
  rw [insertionSort_sorted_eq _ (hsorted_keys_sorted e.headers hsorted)]
  rw [map_keys_lookup headerLine e.headers (hsorted_keys_nodup e.headers hsorted)]

/-- Once the header loop's result is known, `parseEvent` is just the
body-reading stage. -/
theorem parseEvent_ok_step (s : Str) (hs : Headers) (rest : Str)
    (h : parseHeaders s [] = .ok (hs, rest)) :
    parseEvent s
      = (if 0 < (goParseInt (hlookup hs contentLengthKey)).fst then
           if (goParseInt (hlookup hs contentLengthKey)).fst ≤ (rest.length : Int)
           then .ok ⟨hs, rest.take (goParseInt (hlookup hs contentLengthKey)).fst.toNat⟩
           else .error .bodyUnexpectedEOF
         else .ok ⟨hs, []⟩) := by
  rw [parseEvent, h]

/-- No wire-safe header key is the `Content-Length` key. -/
theorem wiresafe_no_cl (e : Event) (hws : WireSafe e) :
    contentLengthKey ∉ e.headers.map Prod.fst := by
  intro hm
  obtain ⟨p, hpmem, hfst⟩ := List.mem_map.mp hm
  obtain ⟨_, _, _, hfold, _⟩ := hws.2 p hpmem
  rw [hfst] at hfold
  exact absurd hfold (by decide)

/-- C1 (amended): serializing a wire-safe event with `Event.WriteTo` and
parsing the bytes back with `parseEvent` yields exactly the original header
map — plus the recomputed `Content-Length` entry when the body is
non-empty — and the original body.  Wire safety (no newlines, colons in
keys, leading blanks or percent-escapes in values, no `Content-Length`-like
key) is necessary: see the counterexample for a value holding a newline. -/
theorem event_writeTo_parseEvent_roundtrip (e : Event) (hws : WireSafe e)
    (hlen : e.body.length < 2 ^ 63) :
    parseEvent (eventWriteTo e)
      = .ok ⟨(if e.body = [] then e.headers
              else hinsert e.headers contentLengthKey (natToStr e.body.length)),
             e.body⟩ := by
  have hfold : e.headers.foldl (fun a p => hinsert a p.1 p.2) [] = e.headers := by
    have := foldl_hinsert_sorted e.headers []
    simp at this
    exact this hws.1
  by_cases hb : e.body = []
  · have hph : parseHeaders (eventWriteTo e) [] = .ok (e.headers, []) := by
      rw [eventWriteTo_eq e hws]
      rw [if_neg (by rw [hb]; simp)]
      rw [parseHeaders_block e.headers [] [] hws.2]
      rw [parseHeaders_nil, hfold]
    rw [parseEvent_ok_step _ _ _ hph]
    have hcl : hlookup e.headers contentLengthKey = [] :=
      hlookup_not_mem e.headers contentLengthKey (wiresafe_no_cl e hws)
    rw [hcl]
    rw [if_pos hb, hb]
    rfl
  · have hpos : 0 < e.body.length := List.length_pos.mpr hb
    have hph : parseHeaders (eventWriteTo e) []
        = .ok (hinsert e.headers contentLengthKey (natToStr e.body.length),
               e.body) := by
      have htail : contentLengthKey ++ str (": ") ++ natToStr e.body.length
          ++ str ("\n\n") ++ e.body
          = (contentLengthKey ++ ':' :: ' ' :: natToStr e.body.length)
              ++ '\n' :: ('\n' :: e.body) := by
        rw [str, str]
        simp [List.append_assoc]
      rw [eventWriteTo_eq e hws, if_pos hpos]
      rw [htail]
      rw [parseHeaders_block e.headers _ [] hws.2, hfold]
      rw [parseHeaders_line contentLengthKey (natToStr e.body.length) _ e.headers
        (by decide) (by decide) (by decide)
        (not_mem_natToStr _ _ (by decide)) (trimLeft_natToStr _)
        (pathUnescapeBE_no_pct _ (not_mem_natToStr _ _ (by decide)))]
      rw [parseHeaders_blank]
    rw [parseEvent_ok_step _ _ _ hph]
    rw [hlookup_hinsert_self e.headers contentLengthKey (natToStr e.body.length)]
    rw [goParseInt_natToStr e.body.length,
      if_pos (show e.body.length ≤ 2 ^ 63 - 1 by omega)]
    simp [hb, hpos]

/-- Witness for C1 at a concrete wire-safe event with a body. -/
theorem event_writeTo_parseEvent_roundtrip_witness :
    parseEvent (eventWriteTo ⟨[(str ("Event-Name"), str ("HEARTBEAT"))], str ("ok")⟩)
      = .ok ⟨(if str ("ok") = ([] : Str)
              then [(str ("Event-Name"), str ("HEARTBEAT"))]
              else hinsert [(str ("Event-Name"), str ("HEARTBEAT"))]
                contentLengthKey (natToStr (str ("ok")).length)),
             str ("ok")⟩ :=
  event_writeTo_parseEvent_roundtrip
    ⟨[(str ("Event-Name"), str ("HEARTBEAT"))], str ("ok")⟩
    (by constructor
        · exact List.pairwise_singleton _ _
        · intro p hp
          rw [List.mem_singleton] at hp
          rw [hp]
          refine ⟨by decide, by decide, by decide, by decide, by decide, by decide, ?_⟩
          exact pathUnescapeBE_no_pct _ (by decide))
    (by decide)

/-- Counterexample for C1 as stated: a header value holding a newline is
collapsed to a space by `Event.WriteTo`, so decoding does not restore the
original header map. -/
theorem event_roundtrip_counterexample :
    parseEvent (eventWriteTo ⟨[(str ("A"), ['x', '\n', 'y'])], []⟩)
      = .ok ⟨[(str ("A"), ['x', ' ', 'y'])], []⟩
    ∧ (['x', ' ', 'y'] : Str) ≠ ['x', '\n', 'y'] := by
  constructor
  · have h1 : eventWriteTo ⟨[(str ("A"), ['x', '\n', 'y'])], []⟩
        = 'A' :: ':' :: ' ' :: 'x' :: ' ' :: 'y' :: '\n' :: [] := by
      rw [eventWriteTo]
      decide
    rw [h1]
    have h2 : ('A' :: ':' :: ' ' :: 'x' :: ' ' :: 'y' :: '\n' :: [] : Str)
        = ((['A'] ++ ':' :: ' ' :: ['x', ' ', 'y']) ++ '\n' :: []) := by decide
    rw [h2]
    have hph : parseHeaders ((['A'] ++ ':' :: ' ' :: ['x', ' ', 'y']) ++ '\n' :: []) []
        = .ok ([(['A'], ['x', ' ', 'y'])], []) := by
      rw [parseHeaders_line ['A'] ['x', ' ', 'y'] [] []
        (by decide) (by decide) (by decide) (by decide) (by decide)
        (pathUnescapeBE_no_pct _ (by decide))]
      rw [parseHeaders_nil]
      rfl
    rw [parseEvent_ok_step _ _ _ hph]
    rfl
  · decide

/-- Reading a newline-terminated line that does not end in a carriage
return hands back the line and the rest of the stream. -/
theorem readLine_append (l r : Str) (hn : '\n' ∉ l) (hr : l.getLast? ≠ some '\r') :
    readLine (l ++ '\n' :: r) = .ok (l, r) := by
  have hne : l ++ '\n' :: r ≠ [] := by
    cases l <;> simp
  rw [readLine, if_neg hne, splitLine_append l r hn]
  show Except.ok ((if l.getLast? = some '\r' then l.dropLast else l), r)
      = Except.ok (l, r)
  rw [if_neg hr]

/-- The last byte of a header line `<key>: <value>` with a CR-free value is
not a carriage return. -/
theorem headerLine_getLast (k v : Str) (hvr : '\r' ∉ v) :
    (k ++ ':' :: ' ' :: v).getLast? ≠ some '\r' := by
  rw [List.getLast?_append_of_ne_nil k (by simp)]
  cases hv : v with
  | nil => decide
  | cons c t =>
    rw [show (':' :: ' ' :: c :: t : Str) = [':', ' '] ++ c :: t from rfl]
    rw [List.getLast?_append_of_ne_nil _ (by simp)]
    rw [← hv]
    intro hlast
    obtain ⟨hne, heq⟩ :=
      List.mem_getLast?_eq_getLast (show '\r' ∈ v.getLast? from hlast)
    exact hvr (heq ▸ List.getLast_mem hne)

/-- One header line is consumed by the `conn.Read` loop, dispatching on the
four recognized keys (any other key is ignored). -/
theorem connReadLoop_line (k v t : Str) (resp : Response) (cl : Int)
    (hk : k ≠ []) (hkc : ':' ∉ k) (hkn : '\n' ∉ k)
    (hvn : '\n' ∉ v) (hvr : '\r' ∉ v) (hvt : trimLeft v = v) :
    connReadLoop ((k ++ ':' :: ' ' :: v) ++ '\n' :: t) resp cl
      = (if k = str ("Content-Type") then
           connReadLoop t { resp with contentType := v } cl
         else if k = str ("Reply-Text") then
           connReadLoop t { resp with text := v } cl
         else if k = str ("Job-UUID") then
           connReadLoop t { resp with jobUUID := v } cl
         else if k = str ("Content-Length") then
           (match goParseInt v with
            | (m, true) => connReadLoop t resp m
            | (_, false) => .error (.malformedLength v))
         else connReadLoop t resp cl) := by
  have hline : '\n' ∉ (k ++ ':' :: ' ' :: v) := by
    intro hm
    rcases List.mem_append.mp hm with hm | hm
    · exact hkn hm
    · rcases List.mem_cons.mp hm with hm | hm
      · exact absurd hm.symm (by decide)
      · rcases List.mem_cons.mp hm with hm | hm
        · exact absurd hm.symm (by decide)
        · exact hvn hm
  have hrl : readLine ((k ++ ':' :: ' ' :: v) ++ '\n' :: t)
      = .ok (k ++ ':' :: ' ' :: v, t) :=
    readLine_append _ _ hline (headerLine_getLast k v hvr)
  rw [connReadLoop.eq_def]
  split
  · rename_i e heq
    rw [heq] at hrl
    exact absurd hrl (by simp)
  · rename_i line rest heq
    rw [heq] at hrl
    injection hrl with hrl
    injection hrl with h1 h2
    subst h1
    subst h2
    rw [if_neg (by simp [hk])]
    rw [splitColonAux_append k (' ' :: v) hkc]
    simp only []
    rw [if_neg hk]
    have hval : trimLeft (' ' :: v) = v := by
      rw [trimLeft.eq_def]
      simp [hvt]
    rw [hval]

/-- A blank line either ends the `conn.Read` header loop (once a
`Content-Type` has been seen) or is skipped. -/
theorem connReadLoop_blank (t : Str) (resp : Response) (cl : Int) :
    connReadLoop ('\n' :: t) resp cl
      = (if resp.contentType = [] then connReadLoop t resp cl
         else .ok (resp, cl, t)) := by
  have hrl : readLine ('\n' :: t) = .ok ([], t) := by
    rw [readLine, if_neg (by simp)]
    rw [show splitLine ('\n' :: t) = some ([], t) from rfl]
    rfl
  rw [connReadLoop.eq_def]
  split
  · rename_i e heq
    rw [heq] at hrl
    exact absurd hrl (by simp)
  · rename_i line rest heq
    rw [heq] at hrl
    injection hrl with hrl
    injection hrl with h1 h2
    subst h1
    subst h2
    rw [if_pos rfl]

/-- Once the header loop's result is known, `conn.Read` is just the
body-reading stage. -/
theorem connRead_ok_step (s : Str) (resp : Response) (cl : Int) (rest : Str)
    (h : connReadLoop s ⟨[], [], [], []⟩ 0 = .ok (resp, cl, rest)) :
    connRead s
      = (if 0 < cl then
           match readFull cl.toNat rest with
           | .error e => .error (.failedReadBody e)
           | .ok (body, rest2) => .ok ({ resp with body := body }, rest2)
         else .ok (resp, rest)) := by
  rw [connRead, h]

/-- C7 (amended): for a frame promising `n > 0` body bytes with fewer
available, parsing never returns success with a partial body: `parseEvent`
fails with the unexpected-end-of-stream error, and `conn.Read` fails with a
wrapped end-of-stream error — unexpected-end-of-stream when some body bytes
are available, plain end-of-stream when none are (see the counterexample).
When enough bytes are available, exactly `n` bytes are consumed as the
body. -/
theorem contentLength_body_guard (n : Nat) (avail : Str) (hpos : 0 < n)
    (hn : n < 2 ^ 63) :
    (avail.length < n →
      parseEvent (contentLengthKey ++ str (": ") ++ natToStr n
            ++ str ("\n\n") ++ avail)
        = .error .bodyUnexpectedEOF
      ∧ connRead (str ("Content-Type: api/response\nContent-Length: ")
            ++ natToStr n ++ str ("\n\n") ++ avail)
        = .error (.failedReadBody
            (if avail.length = 0 then .eof else .unexpectedEof)))
    ∧ (n ≤ avail.length →
      parseEvent (contentLengthKey ++ str (": ") ++ natToStr n
            ++ str ("\n\n") ++ avail)
        = .ok ⟨[(contentLengthKey, natToStr n)], avail.take n⟩
      ∧ connRead (str ("Content-Type: api/response\nContent-Length: ")
            ++ natToStr n ++ str ("\n\n") ++ avail)
        = .ok (⟨apiResponse, [], [], avail.take n⟩, avail.drop n)) := by
  have hdig_n : '\n' ∉ natToStr n := not_mem_natToStr n '\n' (by decide)
  have hdig_r : '\r' ∉ natToStr n := not_mem_natToStr n '\r' (by decide)
  have hdig_p : '%' ∉ natToStr n := not_mem_natToStr n '%' (by decide)
  have hle : n ≤ 2 ^ 63 - 1 := by omega
  have hposI : (0 : Int) < (n : Int) := by exact_mod_cast hpos
  have hph : parseHeaders (contentLengthKey ++ str (": ") ++ natToStr n
        ++ str ("\n\n") ++ avail) []
      = .ok ([(contentLengthKey, natToStr n)], avail) := by
    have hshape : contentLengthKey ++ str (": ") ++ natToStr n
          ++ str ("\n\n") ++ avail
        = (contentLengthKey ++ ':' :: ' ' :: natToStr n)
            ++ '\n' :: ('\n' :: avail) := by
      simp [show str (": ") = [':', ' '] from rfl,
        show str ("\n\n") = ['\n', '\n'] from rfl, List.append_assoc]
    rw [hshape]
    rw [parseHeaders_line contentLengthKey (natToStr n) _ []
      (by decide) (by decide) (by decide) hdig_n (trimLeft_natToStr n)
      (pathUnescapeBE_no_pct _ hdig_p)]
    rw [parseHeaders_blank]
    rfl
  have hlk : hlookup [(contentLengthKey, natToStr n)] contentLengthKey
      = natToStr n := by
    show (if contentLengthKey = contentLengthKey then natToStr n
          else hlookup [] contentLengthKey) = natToStr n
    rw [if_pos rfl]
  have hloop : connReadLoop (str ("Content-Type: api/response\nContent-Length: ")
        ++ natToStr n ++ str ("\n\n") ++ avail) ⟨[], [], [], []⟩ 0
      = .ok (⟨apiResponse, [], [], []⟩, (n : Int), avail) := by
    have hshape2 : str ("Content-Type: api/response\nContent-Length: ")
          ++ natToStr n ++ str ("\n\n") ++ avail
        = (str ("Content-Type") ++ ':' :: ' ' :: str ("api/response"))
            ++ '\n' :: ((str ("Content-Length") ++ ':' :: ' ' :: natToStr n)
              ++ '\n' :: ('\n' :: avail)) := by
      have hlit : str ("Content-Type: api/response\nContent-Length: ")
          = (str ("Content-Type") ++ ':' :: ' ' :: str ("api/response"))
              ++ '\n' :: (str ("Content-Length") ++ [':', ' ']) := by decide
      rw [hlit]
      simp [show str ("\n\n") = ['\n', '\n'] from rfl, List.append_assoc]
    rw [hshape2]
    rw [connReadLoop_line (str ("Content-Type")) (str ("api/response")) _ _ _
      (by decide) (by decide) (by decide) (by decide) (by decide) (by decide)]
    rw [if_pos rfl]
    rw [connReadLoop_line (str ("Content-Length")) (natToStr n) _ _ _
      (by decide) (by decide) (by decide) hdig_n hdig_r (trimLeft_natToStr n)]
    rw [if_neg (by decide), if_neg (by decide), if_neg (by decide)]
    rw [if_pos rfl]
    rw [goParseInt_natToStr n, if_pos hle]
    show connReadLoop ('\n' :: avail) ⟨apiResponse, [], [], []⟩ (n : Int)
        = .ok (⟨apiResponse, [], [], []⟩, (n : Int), avail)
    rw [connReadLoop_blank]
    rw [if_neg (by decide)]
  constructor
  · intro hshort
    have hnleI : ¬((n : Int) ≤ (avail.length : Int)) := by
      exact_mod_cast not_le.mpr hshort
    constructor
    · rw [parseEvent_ok_step _ _ _ hph, hlk, goParseInt_natToStr n, if_pos hle]
      simp [hposI, hnleI]
    · rw [connRead_ok_step _ _ _ _ hloop]
      have hrf : readFull ((n : Int)).toNat avail
          = (if avail.length = 0 then .error .eof
             else .error .unexpectedEof) := by
        rw [Int.toNat_natCast, readFull, if_neg (by omega)]
      rw [hrf, if_pos hposI]
      by_cases hz : avail.length = 0
      · rw [if_pos hz, if_pos hz]
      · rw [if_neg hz, if_neg hz]
  · intro henough
    have hleI : ((n : Int) ≤ (avail.length : Int)) := by exact_mod_cast henough
    constructor
    · rw [parseEvent_ok_step _ _ _ hph, hlk, goParseInt_natToStr n, if_pos hle]
      simp [hposI, hleI]
    · rw [connRead_ok_step _ _ _ _ hloop]
      have hrf2 : readFull ((n : Int)).toNat avail
          = .ok (avail.take n, avail.drop n) := by
        rw [Int.toNat_natCast, readFull, if_pos henough]
      rw [hrf2, if_pos hposI]

/-- Witness for C7 at a one-byte body with two bytes available. -/
theorem contentLength_body_guard_witness :
    parseEvent (contentLengthKey ++ str (": ") ++ natToStr 1
          ++ str ("\n\n") ++ str ("xy"))
      = .ok ⟨[(contentLengthKey, natToStr 1)], (str ("xy")).take 1⟩
    ∧ connRead (str ("Content-Type: api/response\nContent-Length: ")
          ++ natToStr 1 ++ str ("\n\n") ++ str ("xy"))
      = .ok (⟨apiResponse, [], [], (str ("xy")).take 1⟩, (str ("xy")).drop 1) :=
  (contentLength_body_guard 1 (str ("xy")) (by decide) (by decide)).2 (by decide)

/-- Counterexample for C7 as stated: when no body bytes at all are
available, `conn.Read` fails with the plain end-of-stream error wrapped in
`failed to read body`, not the unexpected-end-of-stream error. -/
theorem connRead_plain_eof_counterexample :
    connRead (str ("Content-Type: api/response\nContent-Length: 5\n\n"))
      = .error (.failedReadBody .eof)
    ∧ RdErr.failedReadBody .eof ≠ RdErr.failedReadBody .unexpectedEof := by
  constructor
  · simp [connRead, connReadLoop, readLine, splitLine, splitColonAux, trimLeft,
      goParseInt, decVal, decStep, readFull, str]
  · decide

end Esl
